import Mathlib

/-!
Verification of the `ring` library: a double-mapped circular byte buffer
(`src/ring.h`, `src/ring.c`, and the width-parameterized twins
`src/ring32.c` / `src/ring16.c` / `ring_impl.h`).

The embedding is parameterized by the cursor bit width `w` (16 or 32 in the
C source; `w` is `8 * sizeof(rb->capacity)`).  Machine integers are modeled
as `Nat` reduced modulo `2^w` where C unsigned arithmetic wraps, and as
`Int` where the C uses `ssize_t`.  The struct fields keep the source names
(`index.start`/`index.end` become `index_start`/`index_end`, `maps.data`/
`maps.copy` become `maps_data`/`maps_copy`; pointers are modeled as `Nat`
addresses).  `ring_init` / `ring_fini` interact with the OS, so they are
embedded against an oracle of syscall outcomes and return, besides the C
return value and `errno`, the final content of the destination storage and
the trace of resource actions (open/close/map/unmap) they performed.
-/

namespace RingSpec

/-- `errno` value `EINVAL` (invalid argument). -/
def EINVAL : Nat := 22

/-- `errno` value `EDOM` (numerical argument out of domain). -/
def EDOM : Nat := 33

/-- `errno` value `ENXIO` (device not configured). -/
def ENXIO : Nat := 6

/-- `struct ring` from `ring.h` / `ring_impl.h`: capacity, mask, the two
cursor indices (`index.start`, `index.end`) and the two map pointers
(`maps.data`, `maps.copy`), pointers modeled as numeric addresses. -/
structure Ring where
  capacity : Nat
  mask : Nat
  index_start : Nat
  index_end : Nat
  maps_data : Nat
  maps_copy : Nat
deriving DecidableEq

/-- The all-zero sentinel state that `bzero(rb, sizeof(*rb))` leaves behind. -/
def zeroRing : Ring := ⟨0, 0, 0, 0, 0, 0⟩

/-- Unsigned subtraction `a - b` in `w`-bit machine arithmetic
(the value of the C expression `a - b` on `uintw_t` operands). -/
def usub (w a b : Nat) : Nat := (a + (2 ^ w - b % 2 ^ w)) % 2 ^ w

/-- The `SANITY_CHECK` macro of `ring.h`: `rb` non-null (implicit here),
`capacity != 0`, `mask != 0`, `(capacity & mask) == 0`. -/
def SANITY_CHECK (rb : Ring) : Prop :=
  rb.capacity ≠ 0 ∧ rb.mask ≠ 0 ∧ rb.capacity &&& rb.mask = 0

/-- A live ring for cursor width `w`: the `SANITY_CHECK` fields, the fields
fit in `w` bits, and the `assert(count <= rb->capacity)` of `ring_count`
holds. -/
def Live (w : Nat) (rb : Ring) : Prop :=
  SANITY_CHECK rb ∧ rb.capacity < 2 ^ w ∧
  rb.index_start < 2 ^ w ∧ rb.index_end < 2 ^ w ∧
  usub w rb.index_end rb.index_start ≤ rb.capacity

/-- `ring_count`: `uint32_t count = (rb->index.end - rb->index.start);`. -/
def ring_count (w : Nat) (rb : Ring) : Nat :=
  usub w rb.index_end rb.index_start

/-- The assertion `assert(count <= rb->capacity)` inside `ring_count`. -/
def ring_count_assert (w : Nat) (rb : Ring) : Prop :=
  ring_count w rb ≤ rb.capacity

/-- `ring_free`: `return (rb->capacity - count);` (unsigned `w`-bit). -/
def ring_free (w : Nat) (rb : Ring) : Nat :=
  usub w rb.capacity (ring_count w rb)

/-- `ring_full`: `return (rb->capacity == count);`. -/
def ring_full (w : Nat) (rb : Ring) : Bool :=
  rb.capacity == ring_count w rb

/-- `ring_empty`: `return (rb->index.start == rb->index.end);`. -/
def ring_empty (rb : Ring) : Bool :=
  rb.index_start == rb.index_end

/-- `ring_read_buffer`: pointer `&rb->maps.data[rb->index.end & rb->mask]`
when `ring_free(rb) > 0`, else `NULL`; `*nbytes` receives `ring_free(rb)`. -/
def ring_read_buffer (w : Nat) (rb : Ring) : Option Nat × Nat :=
  let avail := ring_free w rb
  (if 0 < avail then some (rb.maps_data + (rb.index_end &&& rb.mask)) else none,
   avail)

/-- `ring_write_buffer`: pointer `&rb->maps.data[rb->index.start & rb->mask]`
when `ring_count(rb) > 0`, else `NULL`; `*nbytes` receives `ring_count(rb)`. -/
def ring_write_buffer (w : Nat) (rb : Ring) : Option Nat × Nat :=
  let count := ring_count w rb
  (if 0 < count then some (rb.maps_data + (rb.index_start &&& rb.mask)) else none,
   count)

/-- The assertion `assert(nread <= rb->capacity)` of the advance functions:
`nread` is `ssize_t`, `rb->capacity` promotes to the signed comparison. -/
def ring_advance_assert (rb : Ring) (n : Int) : Prop :=
  n ≤ (rb.capacity : Int)

/-- `ring_read_advance`: returns `nread` unchanged; if `nread == -1` the ring
is untouched, otherwise `rb->index.end += nread` in `w`-bit unsigned
arithmetic (the `ssize_t` addend is reduced modulo `2^w`). -/
def ring_read_advance (w : Nat) (rb : Ring) (nread : Int) : Ring × Int :=
  if nread = -1 then (rb, nread)
  else ({ rb with index_end := (((rb.index_end : Int) + nread) % ((2 ^ w : Nat) : Int)).toNat },
        nread)

/-- `ring_write_advance`: returns `nwrit` unchanged; if `nwrit == -1` the ring
is untouched, otherwise `rb->index.start += nwrit` in `w`-bit unsigned
arithmetic. -/
def ring_write_advance (w : Nat) (rb : Ring) (nwrit : Int) : Ring × Int :=
  if nwrit = -1 then (rb, nwrit)
  else ({ rb with index_start := (((rb.index_start : Int) + nwrit) % ((2 ^ w : Nat) : Int)).toNat },
        nwrit)

/-- `ffs`-style count of trailing zero bits, with explicit structural fuel so
that it evaluates by kernel reduction. -/
def ctzFuel : Nat → Nat → Nat
  | 0, _ => 0
  | fuel + 1, n => if n % 2 = 0 ∧ n ≠ 0 then ctzFuel fuel (n / 2) + 1 else 0

/-- Count of trailing zero bits of `n` (meaningful for `n ≠ 0`). -/
def ctz (n : Nat) : Nat := ctzFuel n n

/-- libc `ffsl`: one plus the index of the least significant set bit,
zero when the argument is zero. -/
def ffsl (n : Nat) : Nat := if n = 0 then 0 else ctz n + 1

/-- A resource action performed by `ring_init` / `ring_fini`: acquiring or
releasing the shm descriptor, and establishing or removing a mapping
(address, length). -/
inductive Action where
  | aOpen : Nat → Action
  | aClose : Nat → Action
  | aMap : Nat → Nat → Action
  | aUnmap : Nat → Nat → Action
deriving DecidableEq

/-- Oracle of syscall outcomes for one `ring_init` run: the page size, and
for each of `shm_open` / `ftruncate` / first `mmap` / second `mmap` either
success (descriptor, unit, address, unit) or the `errno` it sets. -/
structure OS where
  pagesz : Nat
  shm_open_res : Except Nat Nat
  ftruncate_res : Except Nat Unit
  mmap1_res : Except Nat Nat
  mmap2_res : Except Nat Unit

/-- Outcome of a `ring_init` / `ring_fini` call: the C return value, the
`errno` it set (0 when it returned 0), the final content of the caller's
destination storage (`none` models a NULL pointer), and the trace of
resource actions performed. -/
structure CallResult where
  ret : Int
  errno : Nat
  dest : Option Ring
  acts : List Action
deriving DecidableEq

/-- `ring_init(rb, lgpages)` from `ring.c` (identically `RING_INIT` in
`ring32.c` for width `w`): NULL check, the `EDOM` geometry guard
`(lgpagesz + lgpages) > (8 * sizeof(rb->capacity) - 1)`, then
`shm_open`, `ftruncate`, the two `mmap`s with their cleanup paths, and the
final `memcpy` of the initializer.  Note the `ftruncate` failure path of the
source returns without `close(shm)`. -/
def ring_init (w : Nat) (os : OS) (dest : Option Ring) (lgpages : Nat) : CallResult :=
  let lgpagesz := ffsl os.pagesz - 1
  match dest with
  | none => ⟨-1, EINVAL, none, []⟩
  | some d =>
    if lgpagesz + lgpages > w - 1 then
      ⟨-1, EDOM, some d, []⟩
    else
      let capacity := 1 <<< (lgpages + lgpagesz)
      match os.shm_open_res with
      | .error e => ⟨-1, e, some d, []⟩
      | .ok shm =>
        match os.ftruncate_res with
        | .error e => ⟨-1, e, some d, [.aOpen shm]⟩
        | .ok _ =>
          match os.mmap1_res with
          | .error e => ⟨-1, e, some d, [.aOpen shm, .aClose shm]⟩
          | .ok data =>
            match os.mmap2_res with
            | .error e =>
              ⟨-1, e, some d,
               [.aOpen shm, .aMap data capacity, .aUnmap data capacity, .aClose shm]⟩
            | .ok _ =>
              let copy := data + capacity
              ⟨0, 0,
               some ⟨capacity, capacity - 1, 0, 0, data, copy⟩,
               [.aOpen shm, .aMap data capacity, .aMap copy capacity, .aClose shm]⟩

/-- `ring_fini(rb)` from `ring.c` (identically `RING_FINI` in `ring32.c`):
NULL check (`EINVAL`), zero-sentinel check (`ENXIO`), then
`(void) munmap(copy)`, `(void) munmap(data)` — both return values
discarded, modeled by the ignored `munmapRes` oracle — and `bzero`. -/
def ring_fini (munmapRes : Nat → Nat → Int) (dest : Option Ring) : CallResult :=
  match dest with
  | none => ⟨-1, EINVAL, none, []⟩
  | some rb =>
    if rb.capacity = 0 then
      ⟨-1, ENXIO, some rb, []⟩
    else
      let _ := munmapRes rb.maps_copy rb.capacity
      let _ := munmapRes rb.maps_data rb.capacity
      ⟨0, 0, some zeroRing,
       [.aUnmap rb.maps_copy rb.capacity, .aUnmap rb.maps_data rb.capacity]⟩

/-! ### Concrete instances used by witnesses and counterexamples -/

/-- A concrete live 32-bit ring: one 4096-byte page, cursors at zero,
primary mapping at address 4096, shadow at 8192. -/
def rb0 : Ring := ⟨4096, 4095, 0, 0, 4096, 8192⟩

/-- A concrete live 32-bit ring with `index.start = 20`, `index.end = 10`
(10 bytes in flight, cursors already wrapped past each other). -/
def rb9 : Ring := ⟨4096, 4095, 20, 10, 4096, 8192⟩

/-- Syscall oracle where every step succeeds: 4096-byte pages, descriptor 3,
first mapping at address 65536. -/
def osOK : OS := ⟨4096, .ok 3, .ok (), .ok 65536, .ok ()⟩

/-- Syscall oracle where `shm_open` succeeds (descriptor 3) and `ftruncate`
fails with `errno` 5 (`EIO`). -/
def osFT : OS := ⟨4096, .ok 3, .error 5, .ok 65536, .ok ()⟩

/-! ### Arithmetic helper lemmas -/

/-- Characterization of `w`-bit unsigned subtraction on in-range operands. -/
lemma usub_eq_of_lt (w a b : Nat) (ha : a < 2 ^ w) (hb : b < 2 ^ w) :
    usub w a b = if b ≤ a then a - b else 2 ^ w - (b - a) := by
  have hp : 0 < 2 ^ w := Nat.two_pow_pos w
  unfold usub
  rw [Nat.mod_eq_of_lt hb]
  by_cases h : b ≤ a
  · rw [if_pos h]
    have h1 : a + (2 ^ w - b) = (a - b) + 2 ^ w := by omega
    rw [h1, Nat.add_mod_right, Nat.mod_eq_of_lt (by omega)]
  · rw [if_neg h]
    have h1 : a + (2 ^ w - b) = 2 ^ w - (b - a) := by omega
    rw [h1, Nat.mod_eq_of_lt (by omega)]

lemma ctzFuel_two_pow (k : Nat) : ∀ fuel, 2 ^ k ≤ fuel → ctzFuel fuel (2 ^ k) = k := by
  induction k with
  | zero =>
    intro fuel h
    obtain ⟨f, rfl⟩ : ∃ f, fuel = f + 1 := ⟨fuel - 1, by omega⟩
    simp [ctzFuel]
  | succ k ih =>
    intro fuel h
    have hpow : (0 : Nat) < 2 ^ k := Nat.two_pow_pos k
    obtain ⟨f, rfl⟩ : ∃ f, fuel = f + 1 := ⟨fuel - 1, by omega⟩
    have hc : 2 ^ (k + 1) % 2 = 0 ∧ 2 ^ (k + 1) ≠ 0 := by
      rw [pow_succ]
      constructor
      · exact Nat.mul_mod_left _ 2
      · omega
    have hdiv : 2 ^ (k + 1) / 2 = 2 ^ k := by
      rw [pow_succ]
      exact Nat.mul_div_cancel _ (by omega)
    have hlt : 2 ^ k < 2 ^ (k + 1) := by rw [pow_succ]; omega
    simp only [ctzFuel, if_pos hc, hdiv]
    rw [ih f (by omega)]

lemma ctz_two_pow (k : Nat) : ctz (2 ^ k) = k :=
  ctzFuel_two_pow k (2 ^ k) le_rfl

lemma ffsl_two_pow (k : Nat) : ffsl (2 ^ k) = k + 1 := by
  have : (2 : Nat) ^ k ≠ 0 := by positivity
  rw [ffsl, if_neg this, ctz_two_pow]

/-- For `0 ≤ n`, the `w`-bit cursor update `a += n` is plain `Nat` addition
modulo `2^w`. -/
lemma advance_formula (w a : Nat) (n : Int) (h0 : 0 ≤ n) :
    (((a : Int) + n) % ((2 ^ w : Nat) : Int)).toNat = (a + n.toNat) % 2 ^ w := by
  have h1 : (a : Int) + n = ((a + n.toNat : Nat) : Int) := by omega
  rw [h1]
  norm_cast

/-- For `n < 0` with `n.natAbs ≤ a < 2^w`, the `w`-bit cursor update
`a += n` subtracts `n.natAbs` without wrapping. -/
lemma advance_neg_formula (w a : Nat) (n : Int) (ha : a < 2 ^ w)
    (habs : n.natAbs ≤ a) (hneg : n < 0) :
    (((a : Int) + n) % ((2 ^ w : Nat) : Int)).toNat = a - n.natAbs := by
  have key : ((a : Int) + n) % ((2 ^ w : Nat) : Int) = (a : Int) + n := by
    apply Int.emod_eq_of_lt <;> omega
  rw [key]
  omega

/-! ### Claims -/

/-- C1: for every live ring, `ring_count` is the `w`-bit modular difference
`index.end - index.start`, `ring_free` is `capacity - ring_count`, their sum
is `capacity`, `ring_full` holds iff `ring_count = capacity` iff
`ring_free = 0`, and `ring_empty` holds iff `index.start = index.end` iff
`ring_count = 0`. -/
theorem C1_cursor_queries (w : Nat) (rb : Ring) (h : Live w rb) :
    ring_count w rb = usub w rb.index_end rb.index_start ∧
    ring_free w rb = rb.capacity - ring_count w rb ∧
    ring_count w rb + ring_free w rb = rb.capacity ∧
    (ring_full w rb = true ↔ ring_count w rb = rb.capacity) ∧
    (ring_full w rb = true ↔ ring_free w rb = 0) ∧
    (ring_empty rb = true ↔ rb.index_start = rb.index_end) ∧
    (ring_empty rb = true ↔ ring_count w rb = 0) := by
  obtain ⟨⟨hcap0, hmask0, hpow⟩, hcap, hs, he, hcnt⟩ := h
  have hp : 0 < 2 ^ w := Nat.two_pow_pos w
  have hcnt' : ring_count w rb ≤ rb.capacity := hcnt
  have hclt : ring_count w rb < 2 ^ w := lt_of_le_of_lt hcnt' hcap
  have hfree : ring_free w rb = rb.capacity - ring_count w rb := by
    rw [ring_free, usub_eq_of_lt w _ _ hcap hclt, if_pos hcnt']
  have hcnt_char :
      ring_count w rb =
        if rb.index_start ≤ rb.index_end then rb.index_end - rb.index_start
        else 2 ^ w - (rb.index_start - rb.index_end) := by
    rw [ring_count, usub_eq_of_lt w _ _ he hs]
  refine ⟨rfl, hfree, by omega, ?_, ?_, ?_, ?_⟩
  · simp only [ring_full, beq_iff_eq]
    omega
  · simp only [ring_full, beq_iff_eq]
    omega
  · simp only [ring_empty, beq_iff_eq]
  · simp only [ring_empty, beq_iff_eq]
    by_cases hc : rb.index_start ≤ rb.index_end
    · rw [if_pos hc] at hcnt_char
      omega
    · rw [if_neg hc] at hcnt_char
      omega

/-- Witness for C1 at the concrete ring `rb0`. -/
theorem C1_cursor_queries_witness :
    Live 32 rb0 ∧ ring_count 32 rb0 + ring_free 32 rb0 = rb0.capacity :=
  ⟨by simp only [Live, SANITY_CHECK]; decide,
   (C1_cursor_queries 32 rb0 (by simp only [Live, SANITY_CHECK]; decide)).2.2.1⟩

/-- C2: both advance functions return their argument unchanged; with the
sentinel `-1` the ring is untouched; with `0 ≤ n ≤ capacity` the value `n`
(including `n = 0`) is added to `index.end` (resp. `index.start`) in `w`-bit
arithmetic. -/
theorem C2_advance_commit (w : Nat) (rb : Ring) (n : Int) :
    ((ring_read_advance w rb n).2 = n ∧ (ring_write_advance w rb n).2 = n) ∧
    (n = -1 → (ring_read_advance w rb n).1 = rb ∧ (ring_write_advance w rb n).1 = rb) ∧
    (0 ≤ n → n ≤ (rb.capacity : Int) →
      (ring_read_advance w rb n).1.index_end = (rb.index_end + n.toNat) % 2 ^ w ∧
      (ring_write_advance w rb n).1.index_start = (rb.index_start + n.toNat) % 2 ^ w) := by
  refine ⟨⟨?_, ?_⟩, ?_, ?_⟩
  · unfold ring_read_advance; split <;> rfl
  · unfold ring_write_advance; split <;> rfl
  · intro h
    subst h
    constructor <;> rfl
  · intro h0 _
    have hne : n ≠ -1 := by omega
    unfold ring_read_advance ring_write_advance
    rw [if_neg hne, if_neg hne]
    exact ⟨advance_formula w rb.index_end n h0, advance_formula w rb.index_start n h0⟩

/-- Witness for C2: committing 5 produced bytes on `rb0` adds 5 to
`index.end`. -/
theorem C2_advance_commit_witness :
    (0 : Int) ≤ 5 ∧ (5 : Int) ≤ (rb0.capacity : Int) ∧
    (ring_read_advance 32 rb0 5).1.index_end = (rb0.index_end + (5 : Int).toNat) % 2 ^ 32 :=
  ⟨by decide, by decide,
   ((C2_advance_commit 32 rb0 5).2.2 (by decide) (by decide)).1⟩

/-- C3: `ring_read_buffer` reports length `ring_free` and yields the pointer
`maps.data + (index.end & mask)` exactly when `ring_free ≠ 0` (`NULL`
otherwise); `ring_write_buffer` reports length `ring_count` and yields
`maps.data + (index.start & mask)` exactly when `ring_count ≠ 0`. -/
theorem C3_buffer_views (w : Nat) (rb : Ring) :
    (ring_read_buffer w rb).2 = ring_free w rb ∧
    ((ring_read_buffer w rb).1 = none ↔ ring_free w rb = 0) ∧
    (ring_free w rb ≠ 0 →
      (ring_read_buffer w rb).1 = some (rb.maps_data + (rb.index_end &&& rb.mask))) ∧
    (ring_write_buffer w rb).2 = ring_count w rb ∧
    ((ring_write_buffer w rb).1 = none ↔ ring_count w rb = 0) ∧
    (ring_count w rb ≠ 0 →
      (ring_write_buffer w rb).1 = some (rb.maps_data + (rb.index_start &&& rb.mask))) := by
  refine ⟨rfl, ?_, ?_, rfl, ?_, ?_⟩
  · by_cases hf : 0 < ring_free w rb <;> simp [ring_read_buffer, hf] <;> omega
  · intro hf
    simp [ring_read_buffer, Nat.pos_of_ne_zero hf]
  · by_cases hc : 0 < ring_count w rb <;> simp [ring_write_buffer, hc] <;> omega
  · intro hc
    simp [ring_write_buffer, Nat.pos_of_ne_zero hc]

/-- Witness for C3 at `rb9` (count 10, free 4086): both windows exist with
the stated pointers. -/
theorem C3_buffer_views_witness :
    ring_free 32 rb9 ≠ 0 ∧ ring_count 32 rb9 ≠ 0 ∧
    (ring_read_buffer 32 rb9).1 = some (rb9.maps_data + (rb9.index_end &&& rb9.mask)) ∧
    (ring_write_buffer 32 rb9).1 = some (rb9.maps_data + (rb9.index_start &&& rb9.mask)) :=
  ⟨by decide, by decide,
   (C3_buffer_views 32 rb9).2.2.1 (by decide),
   (C3_buffer_views 32 rb9).2.2.2.2.2 (by decide)⟩

/-- C8: frame conditions of the mutators.  The query functions
(`ring_count`, `ring_free`, `ring_full`, `ring_empty`, `ring_read_buffer`,
`ring_write_buffer`) perform no store in the source and are embedded as pure
functions of the ring, so they change nothing by construction;
`ring_read_advance` changes at most `index.end`, `ring_write_advance` at
most `index.start`, and neither ever touches `capacity`, `mask` or the two
map pointers. -/
theorem C8_frame_conditions (w : Nat) (rb : Ring) (n : Int) :
    ((ring_read_advance w rb n).1.capacity = rb.capacity ∧
     (ring_read_advance w rb n).1.mask = rb.mask ∧
     (ring_read_advance w rb n).1.maps_data = rb.maps_data ∧
     (ring_read_advance w rb n).1.maps_copy = rb.maps_copy ∧
     (ring_read_advance w rb n).1.index_start = rb.index_start) ∧
    ((ring_write_advance w rb n).1.capacity = rb.capacity ∧
     (ring_write_advance w rb n).1.mask = rb.mask ∧
     (ring_write_advance w rb n).1.maps_data = rb.maps_data ∧
     (ring_write_advance w rb n).1.maps_copy = rb.maps_copy ∧
     (ring_write_advance w rb n).1.index_end = rb.index_end) := by
  unfold ring_read_advance ring_write_advance
  constructor <;> split <;> simp

/-- C9: only the exact value `-1` is the sentinel: any other negative `n`
passes the (signed) assertion `nread <= rb->capacity`, is passed through,
and is added to the cursor modulo `2^w`, silently decreasing it when it does
not wrap below zero. -/
theorem C9_negative_not_sentinel (w : Nat) (rb : Ring) (n : Int)
    (hneg : n < 0) (hne : n ≠ -1)
    (he : rb.index_end < 2 ^ w) (hs : rb.index_start < 2 ^ w) :
    ring_advance_assert rb n ∧
    (ring_read_advance w rb n).2 = n ∧
    (ring_write_advance w rb n).2 = n ∧
    (ring_read_advance w rb n).1.index_end =
      (((rb.index_end : Int) + n) % ((2 ^ w : Nat) : Int)).toNat ∧
    (ring_write_advance w rb n).1.index_start =
      (((rb.index_start : Int) + n) % ((2 ^ w : Nat) : Int)).toNat ∧
    (n.natAbs ≤ rb.index_end →
      (ring_read_advance w rb n).1.index_end = rb.index_end - n.natAbs ∧
      (ring_read_advance w rb n).1.index_end < rb.index_end) ∧
    (n.natAbs ≤ rb.index_start →
      (ring_write_advance w rb n).1.index_start = rb.index_start - n.natAbs ∧
      (ring_write_advance w rb n).1.index_start < rb.index_start) := by
  have hread :
      (ring_read_advance w rb n).1.index_end =
        (((rb.index_end : Int) + n) % ((2 ^ w : Nat) : Int)).toNat := by
    unfold ring_read_advance
    rw [if_neg hne]
  have hwrit :
      (ring_write_advance w rb n).1.index_start =
        (((rb.index_start : Int) + n) % ((2 ^ w : Nat) : Int)).toNat := by
    unfold ring_write_advance
    rw [if_neg hne]
  refine ⟨by unfold ring_advance_assert; omega,
          by unfold ring_read_advance; split <;> rfl,
          by unfold ring_write_advance; split <;> rfl,
          hread, hwrit, ?_, ?_⟩
  · intro habs
    rw [hread, advance_neg_formula w _ n he habs hneg]
    omega
  · intro habs
    rw [hwrit, advance_neg_formula w _ n hs habs hneg]
    omega

/-- Witness for C9: committing `-2` on `rb9` passes the assertion and moves
`index.end` from 10 back to 8. -/
theorem C9_negative_not_sentinel_witness :
    (-2 : Int) < 0 ∧ (-2 : Int) ≠ -1 ∧
    rb9.index_end < 2 ^ 32 ∧ rb9.index_start < 2 ^ 32 ∧
    (-2 : Int).natAbs ≤ rb9.index_end ∧
    ring_advance_assert rb9 (-2) ∧
    (ring_read_advance 32 rb9 (-2)).1.index_end = rb9.index_end - (-2 : Int).natAbs ∧
    (ring_read_advance 32 rb9 (-2)).1.index_end < rb9.index_end :=
  ⟨by decide, by decide, by decide, by decide, by decide,
   (C9_negative_not_sentinel 32 rb9 (-2) (by decide) (by decide) (by decide) (by decide)).1,
   ((C9_negative_not_sentinel 32 rb9 (-2) (by decide) (by decide) (by decide)
      (by decide)).2.2.2.2.2.1 (by decide)).1,
   ((C9_negative_not_sentinel 32 rb9 (-2) (by decide) (by decide) (by decide)
      (by decide)).2.2.2.2.2.1 (by decide)).2⟩

/-- Evaluation of `ring_init` on the all-success path: closed form of the
result for a power-of-two page size `2^k` and an in-range exponent. -/
lemma ring_init_ok (w k p : Nat) (os : OS) (d : Ring) (fd data : Nat)
    (hpg : os.pagesz = 2 ^ k)
    (hshm : os.shm_open_res = .ok fd)
    (hft : os.ftruncate_res = .ok ())
    (hm1 : os.mmap1_res = .ok data)
    (hm2 : os.mmap2_res = .ok ())
    (hfit : k + p ≤ w - 1) (_hw : 1 ≤ w) :
    ring_init w os (some d) p =
      ⟨0, 0,
       some ⟨2 ^ (p + k), 2 ^ (p + k) - 1, 0, 0, data, data + 2 ^ (p + k)⟩,
       [.aOpen fd, .aMap data (2 ^ (p + k)),
        .aMap (data + 2 ^ (p + k)) (2 ^ (p + k)), .aClose fd]⟩ := by
  simp only [ring_init, hpg, ffsl_two_pow, Nat.add_sub_cancel, hshm, hft, hm1, hm2]
  rw [if_neg (by omega)]
  simp [Nat.shiftLeft_eq]

/-- Evaluation of `ring_init` on the `EDOM` path: geometry guard fires,
destination untouched, no resource action taken. -/
lemma ring_init_edom (w k p : Nat) (os : OS) (d : Ring)
    (hpg : os.pagesz = 2 ^ k) (hgt : k + p > w - 1) :
    ring_init w os (some d) p = ⟨-1, EDOM, some d, []⟩ := by
  simp only [ring_init, hpg, ffsl_two_pow, Nat.add_sub_cancel]
  rw [if_pos (by omega)]

/-- C4: for every exponent `p` with `k + p ≤ w - 1` (page size `2^k`), a
successful `ring_init` yields capacity `pagesize * 2^p`, a power of two and
a multiple of the page size, `mask = capacity - 1`, both cursors zero,
`ring_count = 0`, `ring_empty`, and `ring_free = capacity`. -/
theorem C4_init_success (w k p : Nat) (os : OS) (d : Ring) (fd data : Nat)
    (hpg : os.pagesz = 2 ^ k)
    (hshm : os.shm_open_res = .ok fd)
    (hft : os.ftruncate_res = .ok ())
    (hm1 : os.mmap1_res = .ok data)
    (hm2 : os.mmap2_res = .ok ())
    (hfit : k + p ≤ w - 1) (hw : 1 ≤ w) :
    (ring_init w os (some d) p).ret = 0 ∧
    ∃ rb, (ring_init w os (some d) p).dest = some rb ∧
      rb.capacity = os.pagesz * 2 ^ p ∧
      (∃ e, rb.capacity = 2 ^ e) ∧
      os.pagesz ∣ rb.capacity ∧
      rb.mask = rb.capacity - 1 ∧
      rb.index_start = 0 ∧ rb.index_end = 0 ∧
      ring_count w rb = 0 ∧ ring_empty rb = true ∧
      ring_free w rb = rb.capacity := by
  rw [ring_init_ok w k p os d fd data hpg hshm hft hm1 hm2 hfit hw]
  have hcap : 2 ^ (p + k) = os.pagesz * 2 ^ p := by
    rw [hpg, pow_add, mul_comm]
  have hlt : 2 ^ (p + k) < 2 ^ w :=
    Nat.pow_lt_pow_right (by omega) (by omega)
  refine ⟨rfl, ⟨2 ^ (p + k), 2 ^ (p + k) - 1, 0, 0, data, data + 2 ^ (p + k)⟩,
          rfl, hcap, ⟨p + k, rfl⟩, ⟨2 ^ p, hcap⟩,
          rfl, rfl, rfl, ?_, rfl, ?_⟩
  · simp [ring_count, usub]
  · have hc0 : usub w 0 0 = 0 := by simp [usub]
    show usub w (2 ^ (p + k)) (usub w 0 0) = 2 ^ (p + k)
    rw [hc0]
    unfold usub
    rw [Nat.zero_mod, Nat.sub_zero, Nat.add_mod_right, Nat.mod_eq_of_lt hlt]

/-- Witness for C4: exponent 1 with 4096-byte pages gives a live ring of
capacity 8192 and return value 0. -/
theorem C4_init_success_witness :
    osOK.pagesz = 2 ^ 12 ∧ 12 + 1 ≤ 32 - 1 ∧
    (ring_init 32 osOK (some zeroRing) 1).ret = 0 :=
  ⟨by decide, by decide,
   (C4_init_success 32 12 1 osOK zeroRing 3 65536 (by decide) rfl rfl rfl rfl
     (by decide) (by decide)).1⟩

/-- C5 failing input: `shm_open` succeeds (descriptor 3) but `ftruncate`
fails with `errno` 5.  The source returns `-1` with the originating `errno`
and an untouched destination, but performs no `close(3)`: the trace is just
the open, contradicting the unwind-in-reverse claim. -/
theorem C5_ftruncate_descriptor_leak :
    (ring_init 32 osFT (some zeroRing) 0).ret = -1 ∧
    (ring_init 32 osFT (some zeroRing) 0).errno = 5 ∧
    (ring_init 32 osFT (some zeroRing) 0).dest = some zeroRing ∧
    (ring_init 32 osFT (some zeroRing) 0).acts = [Action.aOpen 3] ∧
    Action.aClose 3 ∉ (ring_init 32 osFT (some zeroRing) 0).acts := by
  decide

/-- C6: with a `2^k`-byte page size and otherwise-successful syscalls,
`ring_init` fails with `EDOM` (destination untouched, nothing done) exactly
when `k + p > w - 1`; with 4-KiB pages (`k = 12`) the 16-bit family accepts
exactly `p ≤ 3` and the 32-bit family exactly `p ≤ 19`. -/
theorem C6_domain_error (w k p : Nat) (os : OS) (d : Ring) (fd data : Nat)
    (hpg : os.pagesz = 2 ^ k)
    (hshm : os.shm_open_res = .ok fd)
    (hft : os.ftruncate_res = .ok ())
    (hm1 : os.mmap1_res = .ok data)
    (hm2 : os.mmap2_res = .ok ())
    (hw : 1 ≤ w) :
    (k + p > w - 1 → ring_init w os (some d) p = ⟨-1, EDOM, some d, []⟩) ∧
    ((ring_init w os (some d) p).errno = EDOM ↔ k + p > w - 1) ∧
    (k = 12 → w = 16 → ((ring_init w os (some d) p).ret = 0 ↔ p ≤ 3)) ∧
    (k = 12 → w = 32 → ((ring_init w os (some d) p).ret = 0 ↔ p ≤ 19)) := by
  have hedom : k + p > w - 1 → ring_init w os (some d) p = ⟨-1, EDOM, some d, []⟩ :=
    fun hgt => ring_init_edom w k p os d hpg hgt
  have hok : k + p ≤ w - 1 → (ring_init w os (some d) p).ret = 0 ∧
      (ring_init w os (some d) p).errno = 0 := by
    intro hle
    rw [ring_init_ok w k p os d fd data hpg hshm hft hm1 hm2 hle hw]
    exact ⟨rfl, rfl⟩
  refine ⟨hedom, ?_, ?_, ?_⟩
  · by_cases hgt : k + p > w - 1
    · rw [hedom hgt]
      simpa using hgt
    · have h0 := hok (by omega)
      constructor
      · intro habs
        rw [h0.2] at habs
        simp [EDOM] at habs
      · omega
  · rintro rfl rfl
    constructor
    · intro h0
      by_contra hgt
      rw [hedom (by omega)] at h0
      simp at h0
    · intro hple
      exact (hok (by omega)).1
  · rintro rfl rfl
    constructor
    · intro h0
      by_contra hgt
      rw [hedom (by omega)] at h0
      simp at h0
    · intro hple
      exact (hok (by omega)).1

/-- Witness for C6: exponent 4 on the 16-bit family (4-KiB pages) is one
beyond the maximum and is rejected with `EDOM`, destination untouched. -/
theorem C6_domain_error_witness :
    osOK.pagesz = 2 ^ 12 ∧ 12 + 4 > 16 - 1 ∧
    ring_init 16 osOK (some zeroRing) 4 = ⟨-1, EDOM, some zeroRing, []⟩ :=
  ⟨by decide, by decide,
   (C6_domain_error 16 12 4 osOK zeroRing 3 65536 (by decide) rfl rfl rfl rfl
     (by decide)).1 (by decide)⟩

/-- C7: `ring_fini` on a NULL ring fails with `EINVAL`; on a zero-sentinel
ring it fails with `ENXIO`; in both cases no unmap happens; and a second
destroy after a successful one hits the zero sentinel, yielding `ENXIO` and
an empty action trace. -/
theorem C7_fini_errors (mres mres2 : Nat → Nat → Int) (rb : Ring) :
    ring_fini mres none = ⟨-1, EINVAL, none, []⟩ ∧
    (rb.capacity = 0 → ring_fini mres (some rb) = ⟨-1, ENXIO, some rb, []⟩) ∧
    (rb.capacity ≠ 0 →
      ring_fini mres2 (ring_fini mres (some rb)).dest =
        ⟨-1, ENXIO, some zeroRing, []⟩) := by
  refine ⟨rfl, ?_, ?_⟩
  · intro h
    simp [ring_fini, h]
  · intro h
    simp [ring_fini, h, zeroRing]

/-- Witness for C7: destroying `rb0` twice; the second call reports the
invalid-state error with no unmap action. -/
theorem C7_fini_errors_witness :
    rb0.capacity ≠ 0 ∧
    ring_fini (fun _ _ => 0) (ring_fini (fun _ _ => 0) (some rb0)).dest =
      ⟨-1, ENXIO, some zeroRing, []⟩ :=
  ⟨by decide, (C7_fini_errors (fun _ _ => 0) (fun _ _ => 0) rb0).2.2 (by decide)⟩

/-- C10: on a live ring, `ring_fini` always returns 0, zeroes the structure
and unmaps `copy` then `data`, whatever values the two discarded `munmap`
calls would return — the result is independent of the `munmap` oracle. -/
theorem C10_fini_ignores_munmap (mres mres2 : Nat → Nat → Int) (rb : Ring)
    (h : rb.capacity ≠ 0) :
    ring_fini mres (some rb) =
      ⟨0, 0, some zeroRing,
       [.aUnmap rb.maps_copy rb.capacity, .aUnmap rb.maps_data rb.capacity]⟩ ∧
    ring_fini mres (some rb) = ring_fini mres2 (some rb) := by
  simp [ring_fini, h]

/-- Witness for C10: destroying `rb0` with a `munmap` oracle that always
fails (-1) still returns 0 and zeroes the ring. -/
theorem C10_fini_ignores_munmap_witness :
    rb0.capacity ≠ 0 ∧
    ring_fini (fun _ _ => -1) (some rb0) =
      ⟨0, 0, some zeroRing,
       [.aUnmap rb0.maps_copy rb0.capacity, .aUnmap rb0.maps_data rb0.capacity]⟩ :=
  ⟨by decide,
   (C10_fini_ignores_munmap (fun _ _ => -1) (fun _ _ => 0) rb0 (by decide)).1⟩

end RingSpec
